import Mathlib

/-!
Shallow embedding of the ReadPars parameter-file reader
(`src/readpars.hpp` / `src/readpars.cpp` of rscherrer/readpars).

Modelling choices:
* `std::istringstream` over one line is a `StrStream`: the characters not yet
  consumed, plus the stream's `eofbit` and `failbit`.  `peek()` returns EOF
  exactly when a bit is set or no character remains; it does not skip
  whitespace.
* `std::ifstream` is a `FileStream`: remaining characters plus `eofbit`.
* The C++ template parameter `T` of `read`/`readvalue`/`readvalues` is the
  closed kind `DestType`; note that in C++ `std::is_integral_v<bool>` and
  `std::is_unsigned_v<bool>` are both `true`, which `isIntegral`/`isUnsigned`
  reproduce.
* The `double` receptacle of `read` is modelled by the exact rational value of
  the decimal token (`parseNumber`); the acceptability tests of `read` only
  compare the parsed number with `0`, `1` and its own floor, which the exact
  value represents faithfully for decimal tokens.
* Exceptions become `Except PErr`; destinations passed by reference (`T &value`,
  `std::vector<T> &values`) are returned alongside the `Except` so that their
  content after a throw stays observable.
-/

namespace ReadParsModel

/-- `std::isspace` in the default C locale (the characters skipped by
`operator>>`). -/
def isWS (c : Char) : Bool :=
  c == ' ' || c == '\t' || c == '\n' || c == Char.ofNat 11 || c == Char.ofNat 12 || c == '\r'

/-- `std::isalnum` in the default C locale, over ASCII. -/
def isalnumA (c : Char) : Bool :=
  ('a' ≤ c && c ≤ 'z') || ('A' ≤ c && c ≤ 'Z') || ('0' ≤ c && c ≤ '9')

/-- The character rule of `ReadPars::readnext`: alphanumeric, dot or minus. -/
def validChar (c : Char) : Bool :=
  isalnumA c || c == '.' || c == '-'

/-- State of the `std::istringstream line` member: characters not yet
consumed, plus the stream state bits. -/
structure StrStream where
  rem : List Char
  eofbit : Bool
  failbit : Bool
  deriving DecidableEq

/-- Skip leading whitespace, as `operator>>` does before a token. -/
def dropWS : List Char → List Char
  | [] => []
  | c :: cs => if isWS c then dropWS cs else c :: cs

/-- `line >> input` for a `std::string` destination: fails if a state bit is
set or only whitespace remains; otherwise extracts the maximal run of
non-whitespace characters, setting `eofbit` when the run reaches the end of
the buffer. -/
def extractToken (st : StrStream) : Option (List Char × StrStream) :=
  if st.eofbit || st.failbit then none
  else
    match dropWS st.rem with
    | [] => none
    | c :: cs =>
      let tok := (c :: cs).takeWhile (fun x => !isWS x)
      let rest := (c :: cs).dropWhile (fun x => !isWS x)
      some (tok, ⟨rest, rest.isEmpty, false⟩)

/-- `ReadPars::readnext`: extract a token and require every character to be
alphanumeric, a dot or a minus.  `none` covers both failure modes (extraction
failure and an invalid character). -/
def readnext (st : StrStream) : Option (List Char × StrStream) :=
  match extractToken st with
  | none => none
  | some (tok, st') => if tok.all validChar then some (tok, st') else none

/-- `ReadPars::iseol`: `line.peek() == eof`, i.e. a state bit is set or the
cursor is at the end of the buffer.  Whitespace is NOT skipped. -/
def iseolS (st : StrStream) : Bool :=
  st.eofbit || st.failbit || st.rem.isEmpty

/-- State of the `std::ifstream file` member. -/
structure FileStream where
  rem : List Char
  eofbit : Bool
  opened : Bool
  deriving DecidableEq

/-- `file.peek() == eof` (`ReadPars::iseof`). -/
def iseofF (f : FileStream) : Bool :=
  f.eofbit || f.rem.isEmpty

/-- `std::getline(file, temp)`: characters up to (excluding) the first
newline; the newline is consumed; reaching the end of the buffer sets
`eofbit`. -/
def getlineF (f : FileStream) : List Char × FileStream :=
  if f.eofbit then ([], f)
  else
    let temp := f.rem.takeWhile (fun c => !(c == '\n'))
    let rest := f.rem.dropWhile (fun c => !(c == '\n'))
    match rest with
    | [] => (temp, ⟨[], true, f.opened⟩)
    | _ :: rest2 => (temp, ⟨rest2, false, f.opened⟩)

/-- Digits of a token as a natural number (most significant first). -/
def natOfDigits (l : List Char) : Nat :=
  l.foldl (fun a c => 10 * a + (c.toNat - 48)) 0

/-- Optional exponent part after the mantissa; the whole remainder must be
consumed (`stream >> leftover` must fail). -/
def parseExpAfter (mant : Rat) (l : List Char) : Option Rat :=
  match l with
  | [] => some mant
  | c :: rest =>
    if c == 'e' || c == 'E' then
      let (esgn, e1) : Int × List Char :=
        match rest with
        | '-' :: e0 => (-1, e0)
        | '+' :: e0 => (1, e0)
        | _ => (1, rest)
      let ed := e1.takeWhile Char.isDigit
      let e2 := e1.dropWhile Char.isDigit
      if ed.isEmpty || !e2.isEmpty then none
      else some (mant * (10 : Rat) ^ (esgn * (natOfDigits ed : Int)))
    else none

/-- `!(stream >> x) || (stream >> leftover)` for a `double` receptacle:
the token must be one entire decimal number -- optional sign, digits with an
optional point, optional exponent.  The exact rational value is returned. -/
def parseNumber (l : List Char) : Option Rat :=
  let (sgn, l1) : Rat × List Char :=
    match l with
    | '-' :: rest => (-1, rest)
    | '+' :: rest => (1, rest)
    | _ => (1, l)
  let ip := l1.takeWhile Char.isDigit
  let l2 := l1.dropWhile Char.isDigit
  match l2 with
  | '.' :: l3 =>
    let fp := l3.takeWhile Char.isDigit
    let l4 := l3.dropWhile Char.isDigit
    if ip.isEmpty && fp.isEmpty then none
    else
      parseExpAfter
        (sgn * ((natOfDigits ip : Rat) + (natOfDigits fp : Rat) / ((10 : Rat) ^ fp.length))) l4
  | _ =>
    if ip.isEmpty then none
    else parseExpAfter (sgn * (natOfDigits ip : Rat)) l2

/-- The closed set of destination kinds the C++ template is instantiated at. -/
inductive DestType where
  | signedInt
  | unsignedInt
  | floating
  | boolean
  deriving DecidableEq

/-- `std::is_integral_v<T>` -- true for `bool` as well. -/
def isIntegral : DestType → Bool
  | .floating => false
  | _ => true

/-- `std::is_unsigned_v<T>` -- true for `bool` as well. -/
def isUnsigned : DestType → Bool
  | .unsignedInt => true
  | .boolean => true
  | _ => false

/-- `std::is_same_v<T, bool>`. -/
def isBool : DestType → Bool
  | .boolean => true
  | _ => false

/-- `static_cast<T>(x)` on a value that passed the acceptability tests: the
identity, except that `bool` maps a non-zero value to 1. -/
def castValue (t : DestType) (x : Rat) : Rat :=
  match t with
  | .boolean => if x == 0 then 0 else 1
  | _ => x

/-- The exceptions thrown by ReadPars, with the context each message needs. -/
inductive PErr where
  | openFile (filename : String)
  | emptyFile (filename : String)
  | readName (count : Nat) (filename : String)
  | noValue (name : List Char) (count : Nat) (filename : String)
  | readValue (name : List Char) (count : Nat) (filename : String)
  | parseValue (name : List Char) (count : Nat) (filename : String)
  | tooMany (name : List Char) (count : Nat) (filename : String)
  | tooFew (name : List Char) (count : Nat) (filename : String)
  | invalidParameter (name : List Char) (count : Nat) (filename : String)
  | checkFail (name : List Char) (err : String) (count : Nat) (filename : String)
  deriving DecidableEq

/-- The message strings built by `errorOpenFile` .. `errorInvalidParameter`
and by `checkerror`. -/
def PErr.message : PErr → String
  | .openFile f => "Unable to open file " ++ f
  | .emptyFile f => "File " ++ f ++ " is empty"
  | .readName c f => "Could not read parameter name in line " ++ Nat.repr c ++ " of file " ++ f
  | .noValue n c f =>
      "No value for parameter " ++ String.mk n ++ " in line " ++ Nat.repr c ++ " of file " ++ f
  | .readValue n c f =>
      "Could not read value for parameter " ++ String.mk n ++ " in line " ++ Nat.repr c
        ++ " of file " ++ f
  | .parseValue n c f =>
      "Invalid value type for parameter " ++ String.mk n ++ " in line " ++ Nat.repr c
        ++ " of file " ++ f
  | .tooMany n c f =>
      "Too many values for parameter " ++ String.mk n ++ " in line " ++ Nat.repr c
        ++ " of file " ++ f
  | .tooFew n c f =>
      "Too few values for parameter " ++ String.mk n ++ " in line " ++ Nat.repr c
        ++ " of file " ++ f
  | .invalidParameter n c f =>
      "Invalid parameter: " ++ String.mk n ++ " in line " ++ Nat.repr c ++ " of file " ++ f
  | .checkFail n e c f =>
      "Parameter " ++ String.mk n ++ " " ++ e ++ " in line " ++ Nat.repr c ++ " of file " ++ f

/-- The member state of a `ReadPars` object. -/
structure ReadPars where
  filename : String
  file : FileStream
  count : Nat
  empty : Bool
  comment : Bool
  line : StrStream
  name : List Char
  deriving DecidableEq

/-- The constructor `ReadPars::ReadPars(filename)`. -/
def ReadPars.mk0 (filename : String) : ReadPars :=
  { filename := filename
    file := ⟨[], false, false⟩
    count := 0
    empty := false
    comment := false
    line := ⟨[], false, false⟩
    name := [] }

/-- `ReadPars::isopen`. -/
def ReadPars.isopen (r : ReadPars) : Bool := r.file.opened

/-- `ReadPars::iseof`. -/
def ReadPars.iseof (r : ReadPars) : Bool := iseofF r.file

/-- `ReadPars::iseol`. -/
def ReadPars.iseol (r : ReadPars) : Bool := iseolS r.line

/-- `ReadPars::open`: attach the stream (`content` is what the file system
holds at the stored path, `none` when it cannot be opened), then fail on a
closed stream or an immediately-exhausted one. -/
def ReadPars.openf (r : ReadPars) (content : Option (List Char)) : Except PErr ReadPars :=
  match content with
  | none => .error (.openFile r.filename)
  | some cs =>
    let r1 : ReadPars := { r with file := ⟨cs, false, true⟩ }
    if iseofF r1.file then .error (.emptyFile r1.filename)
    else .ok r1

/-- `ReadPars::reset`. -/
def ReadPars.reset (r : ReadPars) : ReadPars :=
  { r with empty := false, comment := false, line := ⟨[], false, false⟩, name := [] }

/-- `ReadPars::readline`.  The preconditions `isopen` and `!iseof` are
assertions in the source; theorems carry them as hypotheses where relevant. -/
def ReadPars.readline (r : ReadPars) : Except PErr ReadPars :=
  let r0 := r.reset
  let p := getlineF r0.file
  let temp := p.1
  let empty := temp.isEmpty
  let comment := temp.headD (Char.ofNat 0) == '#'
  let count1 := r0.count + 1
  let r1 : ReadPars :=
    { r0 with file := p.2, empty := empty, comment := comment,
              line := ⟨temp, false, false⟩, count := count1 }
  if empty || comment then .ok r1
  else
    match readnext r1.line with
    | none => .error (.readName count1 r1.filename)
    | some (nm, line1) =>
      let r2 : ReadPars := { r1 with line := line1, name := nm }
      if iseolS r2.line then .error (.noValue nm count1 r2.filename)
      else .ok r2

/-- `ReadPars::close`. -/
def ReadPars.close (r : ReadPars) : ReadPars :=
  { r with file := ⟨r.file.rem, r.file.eofbit, false⟩ }

/-- `ReadPars::readerror`. -/
def ReadPars.readerror (r : ReadPars) : PErr :=
  .invalidParameter r.name r.count r.filename

/-- `ReadPars::read<T>(value, check)`.  The second component of the result is
the destination variable after the call: untouched (`value`) until the
assignment `value = static_cast<T>(x)` is reached, the cast value from then
on (also when the checker throws). -/
def ReadPars.read (r : ReadPars) (t : DestType) (check : Option (Rat → String))
    (value : Rat) : Except PErr ReadPars × Rat :=
  match readnext r.line with
  | none => (.error (.readValue r.name r.count r.filename), value)
  | some (temp, line1) =>
    let r1 : ReadPars := { r with line := line1 }
    match parseNumber temp with
    | none => (.error (.parseValue r.name r.count r.filename), value)
    | some x =>
      -- `!std::isfinite(x) || std::floor(x) != x`; a rational is always
      -- finite and equals its floor exactly when its denominator is 1
      if isIntegral t && !(x.den == 1) then
        (.error (.parseValue r.name r.count r.filename), value)
      else if isUnsigned t && decide (x < 0) then
        (.error (.parseValue r.name r.count r.filename), value)
      else if isBool t && decide (1 < x) then
        (.error (.parseValue r.name r.count r.filename), value)
      else
        let v := castValue t x
        let err := match check with
          | some f => f v
          | none => ""
        if err == "" then (.ok r1, v)
        else (.error (.checkFail r1.name err r1.count r1.filename), v)

/-- `ReadPars::readvalue<T>`. -/
def ReadPars.readvalue (r : ReadPars) (t : DestType) (check : Option (Rat → String))
    (value : Rat) : Except PErr ReadPars × Rat :=
  match r.read t check value with
  | (.ok r1, v) =>
    if iseolS r1.line then (.ok r1, v)
    else (.error (.tooMany r1.name r1.count r1.filename), v)
  | (.error e, v) => (.error e, v)

/-- The acceptability tests of `read` on the parsed number, as one predicate
(used to state theorems; `read` itself keeps the source's three branches). -/
def police (t : DestType) (x : Rat) : Bool :=
  !(isIntegral t && !(x.den == 1)) && !(isUnsigned t && decide (x < 0))
    && !(isBool t && decide (1 < x))

theorem dropWS_length_le (l : List Char) : (dropWS l).length ≤ l.length := by
  induction l with
  | nil => exact Nat.le_refl _
  | cons c cs ih =>
    simp only [dropWS]
    split
    · exact Nat.le_trans ih (Nat.le_succ _)
    · exact Nat.le_refl _

theorem dropWS_head (l : List Char) (c : Char) (cs : List Char)
    (h : dropWS l = c :: cs) : isWS c = false := by
  induction l with
  | nil => simp [dropWS] at h
  | cons a as ih =>
    simp only [dropWS] at h
    split at h
    · exact ih h
    · cases h
      rename_i hws
      exact Bool.of_not_eq_true hws

theorem length_dropWhile_le' (p : Char → Bool) (l : List Char) :
    (l.dropWhile p).length ≤ l.length := by
  induction l with
  | nil => exact Nat.le_refl _
  | cons c cs ih =>
    simp only [List.dropWhile]
    split
    · exact Nat.le_trans ih (Nat.le_succ _)
    · exact Nat.le_refl _

theorem extractToken_rem_lt (st : StrStream) (tok : List Char) (st' : StrStream)
    (h : extractToken st = some (tok, st')) : st'.rem.length < st.rem.length := by
  simp only [extractToken] at h
  split at h
  · exact absurd h (by simp)
  · split at h
    · exact absurd h (by simp)
    · rename_i hd c cs hdrop
      cases h
      have hc : isWS c = false := dropWS_head _ _ _ hdrop
      have h1 : ((c :: cs).dropWhile (fun x => !isWS x)).length ≤ cs.length := by
        simp only [List.dropWhile, hc, Bool.not_false]
        exact length_dropWhile_le' _ cs
      have h2 : (c :: cs).length ≤ st.rem.length := by
        rw [← hdrop]
        exact dropWS_length_le _
      simp only [List.length_cons] at h2
      dsimp only
      omega

theorem readnext_rem_lt (st : StrStream) (tok : List Char) (st' : StrStream)
    (h : readnext st = some (tok, st')) : st'.rem.length < st.rem.length := by
  simp only [readnext] at h
  split at h
  · exact absurd h (by simp)
  · rename_i p hp
    split at h
    · cases h
      exact extractToken_rem_lt _ _ _ hp
    · exact absurd h (by simp)

theorem read_ok_rem_lt (r : ReadPars) (t : DestType) (check : Option (Rat → String))
    (d : Rat) (r' : ReadPars) (v : Rat) (h : r.read t check d = (.ok r', v)) :
    r'.line.rem.length < r.line.rem.length := by
  simp only [ReadPars.read] at h
  split at h
  · simp at h
  · rename_i temp line1 hnx
    split at h
    · simp at h
    · split at h
      · simp at h
      · split at h
        · simp at h
        · split at h
          · simp at h
          · split at h
            · cases h
              exact readnext_rem_lt _ _ _ hnx
            · simp at h

/-- The while-loop of `ReadPars::readvalues`: `values` is the destination
vector (already cleared), `i` the element counter, `n` the expected count. -/
def readvaluesLoop (r : ReadPars) (t : DestType) (check : Option (Rat → String))
    (checks : Option (List Rat → String)) (n i : Nat) (values : List Rat) :
    Except PErr ReadPars × List Rat :=
  if iseolS r.line then
    if i ≠ n then (.error (.tooFew r.name r.count r.filename), values)
    else
      let err := match checks with
        | some f => f values
        | none => ""
      if err == "" then (.ok r, values)
      else (.error (.checkFail r.name err r.count r.filename), values)
  else if i = n then (.error (.tooMany r.name r.count r.filename), values)
  else
    match hR : r.read t check 0 with
    | (.error e, _) => (.error e, values)
    | (.ok r1, v) => readvaluesLoop r1 t check checks n (i + 1) (values ++ [v])
termination_by r.line.rem.length
decreasing_by exact read_ok_rem_lt _ _ _ _ _ _ hR

/-- `ReadPars::readvalues<T>(values, n, check, checks)`; the precondition
`assert(n != 0)` is carried as a hypothesis by the theorems.  The second
component is the content of the (by-reference) destination vector after the
call, also when an exception propagates. -/
def ReadPars.readvalues (r : ReadPars) (t : DestType) (n : Nat)
    (check : Option (Rat → String)) (checks : Option (List Rat → String)) :
    Except PErr ReadPars × List Rat :=
  readvaluesLoop r t check checks n 0 []

/-- One call of the example driver workflow (open once, then a sequence of
`readline` / `readvalue` / `readvalues` calls); used to state determinism. -/
inductive Op where
  | oreadline
  | oreadvalue (t : DestType)
  | oreadvalues (t : DestType) (n : Nat)
  deriving DecidableEq

/-- Run a sequence of calls against a session, collecting every stored value;
stops at the first exception. -/
def runOps (ops : List Op) (r : ReadPars) (acc : List Rat) :
    ReadPars × List Rat × Option PErr :=
  match ops with
  | [] => (r, acc, none)
  | op :: rest =>
    match op with
    | .oreadline =>
      match r.readline with
      | .ok r1 => runOps rest r1 acc
      | .error e => (r, acc, some e)
    | .oreadvalue t =>
      match r.readvalue t none 0 with
      | (.ok r1, v) => runOps rest r1 (acc ++ [v])
      | (.error e, _) => (r, acc, some e)
    | .oreadvalues t n =>
      match r.readvalues t n none none with
      | (.ok r1, vs) => runOps rest r1 (acc ++ vs)
      | (.error e, _) => (r, acc, some e)

/-! Helper lemmas about tokenization. -/

theorem validChar_not_ws (c : Char) (h : validChar c = true) : isWS c = false := by
  cases hw : isWS c
  · rfl
  · exfalso
    have h6 : c = ' ' ∨ c = '\t' ∨ c = '\n' ∨ c = Char.ofNat 11 ∨ c = Char.ofNat 12
        ∨ c = '\r' := by
      simpa [isWS, or_assoc] using hw
    rcases h6 with h1 | h1 | h1 | h1 | h1 | h1 <;> subst h1 <;> exact absurd h (by decide)

theorem dropWS_append_ws (l1 l2 : List Char) (h : ∀ c ∈ l1, isWS c = true) :
    dropWS (l1 ++ l2) = dropWS l2 := by
  induction l1 with
  | nil => rfl
  | cons c cs ih =>
    have hc : isWS c = true := h c (List.mem_cons_self _ _)
    simp only [List.cons_append, dropWS, hc, if_true]
    exact ih (fun x hx => h x (List.mem_cons_of_mem _ hx))

theorem dropWS_cons_not_ws (c : Char) (l : List Char) (h : isWS c = false) :
    dropWS (c :: l) = c :: l := by
  simp [dropWS, h]

theorem takeWhile_append_all (p : Char → Bool) (l1 l2 : List Char)
    (h : ∀ c ∈ l1, p c = true) :
    (l1 ++ l2).takeWhile p = l1 ++ l2.takeWhile p := by
  induction l1 with
  | nil => rfl
  | cons c cs ih =>
    have hc : p c = true := h c (List.mem_cons_self _ _)
    simp only [List.cons_append, List.takeWhile_cons, hc, if_true]
    rw [ih (fun x hx => h x (List.mem_cons_of_mem _ hx))]

theorem dropWhile_append_all (p : Char → Bool) (l1 l2 : List Char)
    (h : ∀ c ∈ l1, p c = true) :
    (l1 ++ l2).dropWhile p = l2.dropWhile p := by
  induction l1 with
  | nil => rfl
  | cons c cs ih =>
    have hc : p c = true := h c (List.mem_cons_self _ _)
    simp only [List.cons_append, List.dropWhile_cons, hc, if_true]
    exact ih (fun x hx => h x (List.mem_cons_of_mem _ hx))

theorem takeWhile_nil_or_ws (l : List Char)
    (h : l = [] ∨ ∃ u, l = ' ' :: u) : l.takeWhile (fun x => !isWS x) = [] := by
  rcases h with h | ⟨u, h⟩ <;> subst h
  · rfl
  · simp [List.takeWhile_cons, isWS]

theorem dropWhile_nil_or_ws (l : List Char)
    (h : l = [] ∨ ∃ u, l = ' ' :: u) : l.dropWhile (fun x => !isWS x) = l := by
  rcases h with h | ⟨u, h⟩ <;> subst h
  · rfl
  · simp [List.dropWhile_cons, isWS]

/-- Extraction on a stream shaped `whitespace ++ token ++ rest` (with `rest`
empty or starting with a blank) yields exactly the token. -/
theorem extractToken_shape (ws0 tok rest : List Char)
    (hws : ∀ c ∈ ws0, isWS c = true)
    (htok : tok ≠ []) (htokc : ∀ c ∈ tok, isWS c = false)
    (hrest : rest = [] ∨ ∃ u, rest = ' ' :: u) :
    extractToken ⟨ws0 ++ (tok ++ rest), false, false⟩
      = some (tok, ⟨rest, rest.isEmpty, false⟩) := by
  obtain ⟨c, cs, rfl⟩ : ∃ c cs, tok = c :: cs := by
    cases tok with
    | nil => exact absurd rfl htok
    | cons c cs => exact ⟨c, cs, rfl⟩
  have hc : isWS c = false := htokc c (List.mem_cons_self _ _)
  have hdrop : dropWS (ws0 ++ (c :: cs ++ rest)) = c :: (cs ++ rest) := by
    rw [dropWS_append_ws _ _ hws, List.cons_append]
    exact dropWS_cons_not_ws _ _ hc
  have htk : List.takeWhile (fun x => !isWS x) (c :: (cs ++ rest)) = c :: cs := by
    rw [← List.cons_append, takeWhile_append_all _ _ _ (fun x hx => by simp [htokc x hx]),
        takeWhile_nil_or_ws rest hrest, List.append_nil]
  have hdr : List.dropWhile (fun x => !isWS x) (c :: (cs ++ rest)) = rest := by
    rw [← List.cons_append, dropWhile_append_all _ _ _ (fun x hx => by simp [htokc x hx]),
        dropWhile_nil_or_ws rest hrest]
  simp only [extractToken, hdrop, htk, hdr]
  rfl

/-- `readnext` on the same shape, when every token character is valid. -/
theorem readnext_shape (ws0 tok rest : List Char)
    (hws : ∀ c ∈ ws0, isWS c = true)
    (htok : tok ≠ []) (htokc : tok.all validChar = true)
    (hrest : rest = [] ∨ ∃ u, rest = ' ' :: u) :
    readnext ⟨ws0 ++ (tok ++ rest), false, false⟩
      = some (tok, ⟨rest, rest.isEmpty, false⟩) := by
  have hnw : ∀ c ∈ tok, isWS c = false := by
    intro c hc
    exact validChar_not_ws c (by simpa using List.all_eq_true.mp htokc c hc)
  rw [readnext, extractToken_shape ws0 tok rest hws htok hnw hrest]
  simp [htokc]

theorem extractToken_some_iseol (st : StrStream) (tok : List Char) (st' : StrStream)
    (h : extractToken st = some (tok, st')) : iseolS st = false := by
  simp only [extractToken] at h
  split at h
  · exact absurd h (by simp)
  · rename_i hbits
    split at h
    · exact absurd h (by simp)
    · rename_i hd c cs hdrop
      have hne : st.rem ≠ [] := by
        intro hnil
        rw [hnil] at hdrop
        exact absurd hdrop (by simp [dropWS])
      simp only [iseolS]
      simp only [Bool.or_eq_true, not_or] at hbits
      push_neg at hbits
      simp only [Bool.not_eq_true] at hbits
      simp [hbits.1, hbits.2, List.isEmpty_iff, hne]

theorem readnext_some_iseol (st : StrStream) (tok : List Char) (st' : StrStream)
    (h : readnext st = some (tok, st')) : iseolS st = false := by
  simp only [readnext] at h
  split at h
  · exact absurd h (by simp)
  · rename_i p hp
    split at h
    · cases h
      exact extractToken_some_iseol _ _ _ hp
    · exact absurd h (by simp)

theorem readnext_some_bits (st : StrStream) (tok : List Char) (st' : StrStream)
    (h : readnext st = some (tok, st')) :
    st'.eofbit = st'.rem.isEmpty ∧ st'.failbit = false := by
  simp only [readnext] at h
  split at h
  · exact absurd h (by simp)
  · rename_i p hp
    split at h
    · cases h
      simp only [extractToken] at hp
      split at hp
      · exact absurd hp (by simp)
      · split at hp
        · exact absurd hp (by simp)
        · cases hp
          exact ⟨rfl, rfl⟩
    · exact absurd h (by simp)

/-! Unfolding lemmas for the `readvalues` loop. -/

theorem loop_eol_few {r : ReadPars} {t : DestType} {check : Option (Rat → String)}
    {checks : Option (List Rat → String)} {n i : Nat} {values : List Rat}
    (hE : iseolS r.line = true) (hin : ¬ i = n) :
    readvaluesLoop r t check checks n i values
      = (.error (.tooFew r.name r.count r.filename), values) := by
  rw [readvaluesLoop.eq_def]
  simp [hE, hin]

theorem loop_eol_ok {r : ReadPars} {t : DestType} {check : Option (Rat → String)}
    {n i : Nat} {values : List Rat}
    (hE : iseolS r.line = true) (hin : i = n) :
    readvaluesLoop r t check none n i values = (.ok r, values) := by
  rw [readvaluesLoop.eq_def]
  simp [hE, hin]

theorem loop_many {r : ReadPars} {t : DestType} {check : Option (Rat → String)}
    {checks : Option (List Rat → String)} {n i : Nat} {values : List Rat}
    (hE : iseolS r.line = false) (hin : i = n) :
    readvaluesLoop r t check checks n i values
      = (.error (.tooMany r.name r.count r.filename), values) := by
  rw [readvaluesLoop.eq_def]
  simp [hE, hin]

theorem loop_step {r r1 : ReadPars} {t : DestType} {check : Option (Rat → String)}
    {checks : Option (List Rat → String)} {n i : Nat} {values : List Rat} {v : Rat}
    (hE : iseolS r.line = false) (hin : ¬ i = n)
    (hR : r.read t check 0 = (.ok r1, v)) :
    readvaluesLoop r t check checks n i values
      = readvaluesLoop r1 t check checks n (i + 1) (values ++ [v]) := by
  rw [readvaluesLoop.eq_def]
  simp only [hE, hin, Bool.false_eq_true, if_false, ite_false]
  split
  · rename_i e d heq
    rw [hR] at heq
    exact absurd heq (by simp)
  · rename_i r2 v2 heq
    rw [hR] at heq
    cases heq
    rfl

theorem loop_err {r : ReadPars} {t : DestType} {check : Option (Rat → String)}
    {checks : Option (List Rat → String)} {n i : Nat} {values : List Rat}
    {e : PErr} {d : Rat}
    (hE : iseolS r.line = false) (hin : ¬ i = n)
    (hR : r.read t check 0 = (.error e, d)) :
    readvaluesLoop r t check checks n i values = (.error e, values) := by
  rw [readvaluesLoop.eq_def]
  simp only [hE, hin, Bool.false_eq_true, if_false, ite_false]
  split
  · rename_i e2 d2 heq
    rw [hR] at heq
    cases heq
    rfl
  · rename_i r2 v2 heq
    rw [hR] at heq
    exact absurd heq (by simp)

/-! Lines of the exact form `<name> <v1> ... <vn>`. -/

/-- `' ' :: v1 ++ ' ' :: v2 ++ ...`: the value part of an exact-form line. -/
def joinTokens : List (List Char) → List Char
  | [] => []
  | v :: vs => ' ' :: (v ++ joinTokens vs)

/-- A line of the exact form `<name> <v1> ... <vn>` (single blanks, no
trailing whitespace). -/
def lineOf (nm : List Char) (vs : List (List Char)) : List Char :=
  nm ++ joinTokens vs

/-- The value `read` stores for a token (used to state theorems). -/
def parsedVal (t : DestType) (v : List Char) : Rat :=
  castValue t ((parseNumber v).getD 0)

/-- A value token that `read` accepts for destination kind `t` with no
checker: valid characters, parses as a number, passes the type policing. -/
def goodToken (t : DestType) (v : List Char) : Bool :=
  !v.isEmpty && v.all validChar &&
    (match parseNumber v with
     | some x => police t x
     | none => false)

theorem goodToken_spec {t : DestType} {v : List Char} (h : goodToken t v = true) :
    v ≠ [] ∧ v.all validChar = true
      ∧ ∃ x, parseNumber v = some x ∧ police t x = true := by
  simp only [goodToken, Bool.and_eq_true, Bool.not_eq_true'] at h
  obtain ⟨⟨h1, h2⟩, h3⟩ := h
  refine ⟨?_, h2, ?_⟩
  · intro heq
    rw [heq] at h1
    simp at h1
  · cases hp : parseNumber v with
    | none => rw [hp] at h3; simp at h3
    | some x => rw [hp] at h3; exact ⟨x, rfl, h3⟩

theorem joinTokens_shape (vs : List (List Char)) :
    joinTokens vs = [] ∨ ∃ u, joinTokens vs = ' ' :: u := by
  cases vs with
  | nil => exact Or.inl rfl
  | cons v vs => exact Or.inr ⟨v ++ joinTokens vs, rfl⟩

theorem joinTokens_eq_nil {vs : List (List Char)} (h : joinTokens vs = []) : vs = [] := by
  cases vs with
  | nil => rfl
  | cons v vs => exact absurd h (by simp [joinTokens])

theorem mem_joinTokens {c : Char} {vs : List (List Char)} (h : c ∈ joinTokens vs) :
    c = ' ' ∨ ∃ v ∈ vs, c ∈ v := by
  induction vs with
  | nil => simp [joinTokens] at h
  | cons v vs ih =>
    simp only [joinTokens, List.mem_cons, List.mem_append] at h
    rcases h with h | h | h
    · exact Or.inl h
    · exact Or.inr ⟨v, List.mem_cons_self _ _, h⟩
    · rcases ih h with h1 | ⟨w, hw, hc⟩
      · exact Or.inl h1
      · exact Or.inr ⟨w, List.mem_cons_of_mem _ hw, hc⟩

/-- One successful `read` from a line remainder `' ' :: v ++ rest`. -/
theorem read_step {r : ReadPars} {t : DestType} {v rest : List Char} {x : Rat} (d : Rat)
    (hline : r.line = ⟨' ' :: (v ++ rest), false, false⟩)
    (hrest : rest = [] ∨ ∃ u, rest = ' ' :: u)
    (hv : v ≠ []) (hvc : v.all validChar = true)
    (hx : parseNumber v = some x) (hpol : police t x = true) :
    r.read t none d
      = (.ok { r with line := ⟨rest, rest.isEmpty, false⟩ }, castValue t x) := by
  have hnx : readnext r.line = some (v, ⟨rest, rest.isEmpty, false⟩) := by
    rw [hline]
    have hsh := readnext_shape [' '] v rest
      (by intro c hc; simp only [List.mem_singleton] at hc; subst hc; rfl) hv hvc hrest
    simpa using hsh
  have hpor := hpol
  simp only [police, Bool.and_eq_true, Bool.not_eq_true'] at hpor
  obtain ⟨⟨hp1, hp2⟩, hp3⟩ := hpor
  simp only [ReadPars.read, hnx, hx, hp1, hp2, hp3, Bool.false_eq_true, if_false]
  rfl

theorem arith_add_succ_eq (i len n : Nat) (h : i + (len + 1) = n) : (i + 1) + len = n := by
  omega

theorem arith_add_succ_lt (i len n : Nat) (h : i + (len + 1) < n) : (i + 1) + len < n := by
  omega

theorem arith_add_succ_gt (i len n : Nat) (h : n < i + (len + 1)) : n < (i + 1) + len := by
  omega

theorem arith_sub_split (i n : Nat) (h : i < n) : n - i = (n - (i + 1)) + 1 := by
  omega

theorem arith_ne_of_lt_len (i len n : Nat) (h1 : i = n) (h2 : i ≤ n)
    (h3 : i + (len + 1) ≤ n) : False := by
  omega

/-- Behaviour of the `readvalues` loop on a line remainder holding exactly
the tokens `vs`: success with all parsed values when the count matches,
`TooFewValuesError` with ALL parsed values in the destination when the line
is short, `TooManyValuesError` with the first `n - i` parsed values in the
destination when the line is long. -/
theorem readvaluesLoop_spec (t : DestType) (n : Nat) (vs : List (List Char)) :
    ∀ (r : ReadPars) (i : Nat) (acc : List Rat),
      r.line.rem = joinTokens vs →
      r.line.failbit = false →
      (r.line.eofbit = true → vs = []) →
      (∀ v ∈ vs, goodToken t v = true) →
      i ≤ n →
      ((i + vs.length = n →
          ∃ rf, readvaluesLoop r t none none n i acc
              = (.ok rf, acc ++ vs.map (parsedVal t))
            ∧ rf.name = r.name ∧ rf.count = r.count ∧ rf.filename = r.filename)
       ∧ (i + vs.length < n →
          readvaluesLoop r t none none n i acc
            = (.error (.tooFew r.name r.count r.filename), acc ++ vs.map (parsedVal t)))
       ∧ (n < i + vs.length →
          readvaluesLoop r t none none n i acc
            = (.error (.tooMany r.name r.count r.filename),
               acc ++ (vs.take (n - i)).map (parsedVal t)))) := by
  induction vs with
  | nil =>
    intro r i acc hrem hfb heb hgood hin
    have hE : iseolS r.line = true := by
      simp [iseolS, hrem, joinTokens]
    refine ⟨?_, ?_, ?_⟩
    · intro hlen
      simp only [List.length_nil, Nat.add_zero] at hlen
      exact ⟨r, by rw [loop_eol_ok hE hlen]; simp, rfl, rfl, rfl⟩
    · intro hlen
      simp only [List.length_nil, Nat.add_zero] at hlen
      rw [loop_eol_few hE (by omega)]
      simp
    · intro hlen
      simp only [List.length_nil, Nat.add_zero] at hlen
      omega
  | cons v vs ih =>
    intro r i acc hrem hfb heb hgood hin
    have heb2 : r.line.eofbit = false := by
      cases hb : r.line.eofbit
      · rfl
      · exact absurd (heb hb) (by simp)
    have hE : iseolS r.line = false := by
      simp [iseolS, hrem, joinTokens, heb2, hfb]
    obtain ⟨hv, hvc, x, hx, hpol⟩ := goodToken_spec (hgood v (List.mem_cons_self _ _))
    by_cases hieq : i = n
    · refine ⟨?_, ?_, ?_⟩
      · intro hlen
        exfalso
        simp only [List.length_cons] at hlen
        exact arith_ne_of_lt_len i vs.length n hieq hin (Nat.le_of_eq hlen)
      · intro hlen
        exfalso
        simp only [List.length_cons] at hlen
        exact arith_ne_of_lt_len i vs.length n hieq hin (Nat.le_of_lt hlen)
      · intro _
        rw [loop_many hE hieq]
        subst hieq
        simp [Nat.sub_self]
    · have hline : r.line = ⟨' ' :: (v ++ joinTokens vs), false, false⟩ := by
        rcases hL : r.line with ⟨rem0, eb0, fb0⟩
        rw [hL] at hrem heb2 hfb
        dsimp only at hrem heb2 hfb
        rw [hrem, heb2, hfb]
        rfl
      have hR := read_step (t := t) (0 : Rat) hline (joinTokens_shape vs) hv hvc hx hpol
      rw [loop_step hE hieq hR]
      have hIH := ih { r with line := ⟨joinTokens vs, (joinTokens vs).isEmpty, false⟩ }
        (i + 1) (acc ++ [castValue t x]) rfl rfl
        (fun hb => joinTokens_eq_nil (by simpa [List.isEmpty_iff] using hb))
        (fun w hw => hgood w (List.mem_cons_of_mem _ hw))
        (Nat.succ_le_of_lt (Nat.lt_of_le_of_ne hin hieq))
      have hmap : acc ++ [castValue t x] ++ vs.map (parsedVal t)
          = acc ++ (v :: vs).map (parsedVal t) := by
        simp [parsedVal, hx]
      refine ⟨?_, ?_, ?_⟩
      · intro hlen
        simp only [List.length_cons] at hlen
        obtain ⟨rf, heq, hnm, hct, hfn⟩ := hIH.1 (arith_add_succ_eq _ _ _ hlen)
        rw [heq, hmap]
        exact ⟨rf, rfl, hnm, hct, hfn⟩
      · intro hlen
        simp only [List.length_cons] at hlen
        rw [hIH.2.1 (arith_add_succ_lt _ _ _ hlen), hmap]
      · intro hlen
        simp only [List.length_cons] at hlen
        rw [hIH.2.2 (arith_add_succ_gt _ _ _ hlen)]
        have htake : (v :: vs).take (n - i) = v :: vs.take (n - (i + 1)) := by
          rw [arith_sub_split i n (Nat.lt_of_le_of_ne hin hieq), List.take_succ_cons]
        rw [htake]
        simp [parsedVal, hx]

theorem lineOf_no_newline {nm : List Char} {vs : List (List Char)}
    (hnmc : nm.all validChar = true)
    (hvsc : ∀ v ∈ vs, v.all validChar = true) :
    ∀ c ∈ lineOf nm vs, (!(c == '\n')) = true := by
  intro c hc
  have hvalid_or : validChar c = true ∨ c = ' ' := by
    simp only [lineOf, List.mem_append] at hc
    rcases hc with hc | hc
    · exact Or.inl (by simpa using List.all_eq_true.mp hnmc c hc)
    · rcases mem_joinTokens hc with h1 | ⟨w, hw, hcw⟩
      · exact Or.inr h1
      · exact Or.inl (by simpa using List.all_eq_true.mp (hvsc w hw) c hcw)
  rcases hvalid_or with h1 | h1
  · simp only [Bool.not_eq_true']
    cases hq : (c == '\n')
    · rfl
    · exfalso
      have hcn : c = '\n' := by simpa using hq
      subst hcn
      exact absurd h1 (by decide)
  · subst h1
    rfl

/-- `readline` on a session whose next line has the exact form
`<name> <v1> ... <vn>`: it succeeds, stores the name, and leaves the line
cursor on the blank before `v1`. -/
theorem readline_exact {r0 : ReadPars} {nm : List Char} {vs : List (List Char)}
    {tail : List Char}
    (hfile : r0.file.rem = lineOf nm vs ++ tail)
    (hfeb : r0.file.eofbit = false)
    (htail : tail = [] ∨ ∃ u, tail = '\n' :: u)
    (hnm : nm ≠ []) (hnmc : nm.all validChar = true)
    (hvs : vs ≠ [])
    (hvsc : ∀ v ∈ vs, v.all validChar = true) :
    ∃ r1, r0.readline = .ok r1
      ∧ r1.line = ⟨joinTokens vs, false, false⟩
      ∧ r1.name = nm ∧ r1.count = r0.count + 1 ∧ r1.filename = r0.filename := by
  have hno := lineOf_no_newline hnmc hvsc
  have htw : List.takeWhile (fun c => !(c == '\n')) (lineOf nm vs ++ tail)
      = lineOf nm vs := by
    rw [takeWhile_append_all _ _ _ hno]
    rcases htail with rfl | ⟨u, rfl⟩
    · simp
    · simp [List.takeWhile_cons]
  have hdw : List.dropWhile (fun c => !(c == '\n')) (lineOf nm vs ++ tail) = tail := by
    rw [dropWhile_append_all _ _ _ hno]
    rcases htail with rfl | ⟨u, rfl⟩
    · rfl
    · simp [List.dropWhile_cons]
  obtain ⟨c0, nm0, rfl⟩ : ∃ c0 nm0, nm = c0 :: nm0 := by
    cases nm with
    | nil => exact absurd rfl hnm
    | cons a b => exact ⟨a, b, rfl⟩
  have hc0 : validChar c0 = true := by
    simpa using List.all_eq_true.mp hnmc c0 (List.mem_cons_self _ _)
  have hcomment : ((lineOf (c0 :: nm0) vs).headD (Char.ofNat 0) == '#') = false := by
    simp only [lineOf, List.cons_append, List.headD_cons]
    cases hq : (c0 == '#')
    · rfl
    · exfalso
      have hch : c0 = '#' := by simpa using hq
      subst hch
      exact absurd hc0 (by decide)
  have hempty : (lineOf (c0 :: nm0) vs).isEmpty = false := by
    simp [lineOf]
  have hjt : (joinTokens vs).isEmpty = false := by
    cases vs with
    | nil => exact absurd rfl hvs
    | cons w ws => rfl
  have hnext : readnext ⟨lineOf (c0 :: nm0) vs, false, false⟩
      = some (c0 :: nm0, ⟨joinTokens vs, (joinTokens vs).isEmpty, false⟩) := by
    have hsh := readnext_shape [] (c0 :: nm0) (joinTokens vs)
      (by intro c hc; simp at hc) hnm hnmc (joinTokens_shape vs)
    simpa [lineOf] using hsh
  have hgl : getlineF r0.file = (lineOf (c0 :: nm0) vs,
      ⟨(getlineF r0.file).2.rem, (getlineF r0.file).2.eofbit, r0.file.opened⟩) := by
    simp only [getlineF, hfeb, Bool.false_eq_true, if_false, hfile, htw, hdw]
    rcases htail with rfl | ⟨u, rfl⟩
    · rfl
    · rfl
  simp only [ReadPars.readline, ReadPars.reset]
  rw [hgl]
  simp only [hempty, hcomment, Bool.or_self, Bool.false_eq_true, if_false, hnext,
    Bool.or_false, iseolS, hjt]
  exact ⟨_, rfl, rfl, rfl, rfl, rfl⟩

/-! Concrete sessions used by witnesses and counterexamples. -/

def fname : String := "parameters.txt"

/-- A session in the state reached after `readline` extracted the name of a
first line: name stored, line cursor holding `restLine`. -/
def atLineB (nm restLine : List Char) (eb : Bool) : ReadPars :=
  { filename := fname
    file := ⟨[], true, true⟩
    count := 1
    empty := false
    comment := false
    line := ⟨restLine, eb, false⟩
    name := nm }

def isOkE (e : Except PErr ReadPars) : Bool :=
  match e with
  | .ok _ => true
  | .error _ => false

/-- Construct and open a session on a file with the given content. -/
def afterOpen (content : List Char) : ReadPars :=
  match (ReadPars.mk0 fname).openf (some content) with
  | .ok r => r
  | .error _ => ReadPars.mk0 fname

/-- C7: `open()` fails with `OpenError` (message `Unable to open file <path>`)
when the path cannot be opened, fails with `EmptyFileError` (message
`File <path> is empty`) on a zero-byte file, and on success leaves the
session open, not at end-of-file, with line counter 0. -/
theorem c7_open_behaviour (path : String) (cs : List Char) :
    (ReadPars.mk0 path).openf none = .error (.openFile path)
    ∧ (PErr.openFile path).message = "Unable to open file " ++ path
    ∧ (ReadPars.mk0 path).openf (some []) = .error (.emptyFile path)
    ∧ (PErr.emptyFile path).message = "File " ++ path ++ " is empty"
    ∧ (cs ≠ [] → ∃ r1, (ReadPars.mk0 path).openf (some cs) = .ok r1
        ∧ r1.isopen = true ∧ r1.iseof = false ∧ r1.count = 0) := by
  refine ⟨rfl, rfl, rfl, rfl, ?_⟩
  intro hne
  have hie : cs.isEmpty = false := by
    cases cs with
    | nil => exact absurd rfl hne
    | cons a b => rfl
  refine ⟨{ ReadPars.mk0 path with file := ⟨cs, false, true⟩ }, ?_, rfl, ?_, rfl⟩
  · simp [ReadPars.openf, iseofF, hie]
  · simp [ReadPars.iseof, iseofF, hie]

/-- Witness for C7 at a concrete non-empty file. -/
theorem c7_witness :
    (['a'] : List Char) ≠ []
    ∧ (∃ r1, (ReadPars.mk0 fname).openf (some ['a']) = .ok r1
        ∧ r1.isopen = true ∧ r1.iseof = false ∧ r1.count = 0) :=
  ⟨by decide, (c7_open_behaviour fname ['a']).2.2.2.2 (by decide)⟩

/-- C4 counterexample: with only a blank left on the line, no further
non-whitespace token remains (extraction fails), yet `iseol()` is false,
because `peek` sees the blank rather than EOF. -/
theorem c4_counterexample :
    extractToken ⟨[' '], false, false⟩ = none
    ∧ iseolS ⟨[' '], false, false⟩ = false := by
  exact ⟨rfl, rfl⟩

/-- C4 (amended): on a line stream whose state bits are clear, `iseol()` is
true iff no character at all remains before the cursor reaches the end of
the buffer; whenever a token can still be extracted it is false — but when
only whitespace remains it is also false, contrary to the original claim. -/
theorem c4_amended (st : StrStream) (h1 : st.eofbit = false) (h2 : st.failbit = false) :
    (iseolS st = true ↔ st.rem = [])
    ∧ (∀ tok st2, extractToken st = some (tok, st2) → iseolS st = false) := by
  constructor
  · simp [iseolS, h1, h2, List.isEmpty_iff]
  · intro tok st2 h
    exact extractToken_some_iseol _ _ _ h

/-- Witness for C4 (amended) at a concrete stream. -/
theorem c4_witness :
    (⟨['a'], false, false⟩ : StrStream).eofbit = false
    ∧ (⟨['a'], false, false⟩ : StrStream).failbit = false
    ∧ ((iseolS ⟨['a'], false, false⟩ = true ↔ (⟨['a'], false, false⟩ : StrStream).rem = [])
       ∧ (∀ tok st2, extractToken ⟨['a'], false, false⟩ = some (tok, st2)
            → iseolS ⟨['a'], false, false⟩ = false)) :=
  ⟨rfl, rfl, c4_amended ⟨['a'], false, false⟩ rfl rfl⟩

/-- C9: reading the same content through two freshly constructed and opened
sessions with the same sequence of calls yields identical stored values,
identical outcomes and identical line counts (the reader has no source of
nondeterminism). -/
theorem c9_determinism (path : String) (content : Option (List Char)) (ops : List Op)
    (r1 r2 : ReadPars)
    (h1 : (ReadPars.mk0 path).openf content = .ok r1)
    (h2 : (ReadPars.mk0 path).openf content = .ok r2) :
    runOps ops r1 [] = runOps ops r2 [] ∧ r1.count = r2.count := by
  have heq : r1 = r2 := by
    rw [h1] at h2
    exact Except.ok.inj h2
  subst heq
  exact ⟨rfl, rfl⟩

/-- Witness for C9 at a concrete file and call sequence. -/
theorem c9_witness :
    (ReadPars.mk0 fname).openf (some ['x', ' ', '1']) = .ok (afterOpen ['x', ' ', '1'])
    ∧ runOps [Op.oreadline, Op.oreadvalue DestType.floating] (afterOpen ['x', ' ', '1']) []
        = runOps [Op.oreadline, Op.oreadvalue DestType.floating] (afterOpen ['x', ' ', '1']) []
    ∧ (afterOpen ['x', ' ', '1']).count = (afterOpen ['x', ' ', '1']).count := by
  refine ⟨rfl, ?_⟩
  have h := c9_determinism fname (some ['x', ' ', '1'])
    [Op.oreadline, Op.oreadvalue DestType.floating]
    (afterOpen ['x', ' ', '1']) (afterOpen ['x', ' ', '1']) rfl rfl
  exact h

/-- C8: a value token containing any character other than an alphanumeric,
`.` or `-` (for example `,` or `+`) is rejected by the same tokenization
rule as parameter names, with `ReadValueError` (message `Could not read
value for parameter ...`), not with `ParseValueError`; the destination is
untouched. -/
theorem c8_token_rule (r : ReadPars) (t : DestType) (check : Option (Rat → String))
    (d : Rat) (tok : List Char) (st2 : StrStream) (c : Char)
    (h1 : extractToken r.line = some (tok, st2))
    (hc : c ∈ tok) (hv : validChar c = false) :
    r.read t check d = (.error (.readValue r.name r.count r.filename), d)
    ∧ (PErr.readValue r.name r.count r.filename).message
        = "Could not read value for parameter " ++ String.mk r.name ++ " in line "
          ++ Nat.repr r.count ++ " of file " ++ r.filename
    ∧ validChar ',' = false ∧ validChar '+' = false := by
  have hnall : tok.all validChar = false := by
    cases hall : tok.all validChar
    · rfl
    · exact absurd (List.all_eq_true.mp hall c hc) (by simp [hv])
  have hnx : readnext r.line = none := by
    simp [readnext, h1, hnall]
  exact ⟨by simp [ReadPars.read, hnx], rfl, by decide, by decide⟩

/-- Witness for C8: token `1,2` (a comma inside) is rejected at tokenization. -/
theorem c8_witness :
    extractToken (atLineB ['x'] ['1', ',', '2'] false).line
      = some (['1', ',', '2'], ⟨[], true, false⟩)
    ∧ (',' ∈ ['1', ',', '2'])
    ∧ validChar ',' = false
    ∧ (atLineB ['x'] ['1', ',', '2'] false).read DestType.unsignedInt none 7
        = (.error (.readValue ['x'] 1 fname), 7) := by
  refine ⟨by decide, by decide, by decide, ?_⟩
  exact (c8_token_rule (atLineB ['x'] ['1', ',', '2'] false) DestType.unsignedInt none 7
    ['1', ',', '2'] ⟨[], true, false⟩ ',' (by decide) (by decide) (by decide)).1

/-- C1: a value token that parses as a negative number, read into an
unsigned-integral destination, makes `readvalue` and `readvalues` fail with
`ParseValueError` (message `Invalid value type for parameter ...`); the check
is on the parsed number before any conversion, and the destination keeps its
previous content (scalar) resp. stays empty (vector) — it never receives a
wrapped-around value. -/
theorem c1_unsigned_negative (r : ReadPars) (t : DestType) (check : Option (Rat → String))
    (d : Rat) (m : Nat) (temp : List Char) (line1 : StrStream) (x : Rat)
    (ht : isUnsigned t = true)
    (h1 : readnext r.line = some (temp, line1))
    (h2 : parseNumber temp = some x)
    (hx : x < 0) (hm : 1 ≤ m) :
    r.readvalue t check d = (.error (.parseValue r.name r.count r.filename), d)
    ∧ r.readvalues t m check none = (.error (.parseValue r.name r.count r.filename), [])
    ∧ (PErr.parseValue r.name r.count r.filename).message
        = "Invalid value type for parameter " ++ String.mk r.name ++ " in line "
          ++ Nat.repr r.count ++ " of file " ++ r.filename := by
  have hread : ∀ d0 : Rat, r.read t check d0
      = (.error (.parseValue r.name r.count r.filename), d0) := by
    intro d0
    simp only [ReadPars.read, h1, h2]
    by_cases hden : (x.den == 1) = true
    · have hi : (isIntegral t && !(x.den == 1)) = false := by
        simp [hden]
      have hu : (isUnsigned t && decide (x < 0)) = true := by
        simp [ht, hx]
      simp [hi, hu]
    · have hi : (isIntegral t && !(x.den == 1)) = true := by
        have hit : isIntegral t = true := by
          cases t <;> simp_all [isUnsigned, isIntegral]
        simp only [Bool.not_eq_true] at hden
        simp [hit, hden]
      simp [hi]
  refine ⟨?_, ?_, rfl⟩
  · simp only [ReadPars.readvalue]
    rw [hread d]
  · have hE : iseolS r.line = false := readnext_some_iseol _ _ _ h1
    have hin : ¬ (0 : Nat) = m := by omega
    rw [ReadPars.readvalues, loop_err hE hin (hread 0)]

/-- Witness for C1: token `-1` into an unsigned destination. -/
theorem c1_witness :
    readnext (atLineB ['x'] ['-', '1'] false).line = some (['-', '1'], ⟨[], true, false⟩)
    ∧ parseNumber ['-', '1'] = some (-1)
    ∧ ((-1 : Rat) < 0)
    ∧ (1 : Nat) ≤ 1
    ∧ (atLineB ['x'] ['-', '1'] false).readvalue DestType.unsignedInt none 5
        = (.error (.parseValue ['x'] 1 fname), 5) := by
  have hpn : parseNumber ['-', '1'] = some (-1) := by
    show some ((-1 : Rat) * ((1 : Nat) : Rat)) = some (-1)
    norm_num
  refine ⟨by decide, hpn, by norm_num, by decide, ?_⟩
  exact (c1_unsigned_negative (atLineB ['x'] ['-', '1'] false) DestType.unsignedInt none 5 1
    ['-', '1'] ⟨[], true, false⟩ (-1) (by decide) (by decide) hpn (by norm_num)
    (by decide)).1

/-- C10: scalar `readvalue` assigns the destination only after the token is
fetched, parsed and type-policed — on `ReadValueError` or `ParseValueError`
the destination is unchanged — but before the checker runs and before the
end-of-line check, so on a checker failure or a scalar `TooManyValuesError`
the destination already holds the newly parsed value. -/
theorem c10_scalar_assignment (r : ReadPars) (t : DestType)
    (check : Option (Rat → String)) (d : Rat) :
    (readnext r.line = none →
       r.readvalue t check d = (.error (.readValue r.name r.count r.filename), d))
    ∧ (∀ temp line1, readnext r.line = some (temp, line1) →
        (parseNumber temp = none →
           r.readvalue t check d = (.error (.parseValue r.name r.count r.filename), d))
        ∧ (∀ x, parseNumber temp = some x →
            (police t x = false →
               r.readvalue t check d = (.error (.parseValue r.name r.count r.filename), d))
            ∧ (police t x = true →
                (∀ f, check = some f → ¬ f (castValue t x) = "" →
                   r.readvalue t check d
                     = (.error (.checkFail r.name (f (castValue t x)) r.count r.filename),
                        castValue t x))
                ∧ ((match check with | some f => f (castValue t x) | none => "") = "" →
                    iseolS line1 = false →
                    r.readvalue t check d
                      = (.error (.tooMany r.name r.count r.filename), castValue t x))))) := by
  refine ⟨?_, ?_⟩
  · intro hn
    simp [ReadPars.readvalue, ReadPars.read, hn]
  · intro temp line1 hs
    refine ⟨?_, ?_⟩
    · intro hp
      simp [ReadPars.readvalue, ReadPars.read, hs, hp]
    · intro x hp
      refine ⟨?_, ?_⟩
      · intro hpol
        have hres : r.read t check d
            = (.error (.parseValue r.name r.count r.filename), d) := by
          simp only [ReadPars.read, hs, hp]
          by_cases hb1 : (isIntegral t && !(x.den == 1)) = true
          · simp [hb1]
          · rw [Bool.not_eq_true] at hb1
            by_cases hb2 : (isUnsigned t && decide (x < 0)) = true
            · simp [hb1, hb2]
            · rw [Bool.not_eq_true] at hb2
              have hb3 : (isBool t && decide (1 < x)) = true := by
                cases h3 : (isBool t && decide (1 < x))
                · exfalso
                  simp only [police] at hpol
                  rw [hb1, hb2, h3] at hpol
                  simp at hpol
                · rfl
              simp [hb1, hb2, hb3]
        simp [ReadPars.readvalue, hres]
      · intro hpol
        have hpor := hpol
        simp only [police, Bool.and_eq_true, Bool.not_eq_true'] at hpor
        obtain ⟨⟨hp1, hp2⟩, hp3⟩ := hpor
        refine ⟨?_, ?_⟩
        · intro f hf hferr
          subst hf
          have hfe : (f (castValue t x) == "") = false := by
            simpa using hferr
          simp [ReadPars.readvalue, ReadPars.read, hs, hp, hp1, hp2, hp3, hfe]
        · intro hck hE
          simp only [ReadPars.readvalue, ReadPars.read, hs, hp, hp1, hp2, hp3,
            Bool.false_eq_true, if_false]
          cases check with
          | none =>
            simp [hE]
          | some f =>
            simp only at hck
            simp [hck, hE]

/-- Witness for C10: on a token-read failure the destination keeps its value. -/
theorem c10_witness :
    readnext (atLineB ['x'] [' '] false).line = none
    ∧ (atLineB ['x'] [' '] false).readvalue DestType.floating none 9
        = (.error (.readValue ['x'] 1 fname), 9) := by
  refine ⟨by decide, ?_⟩
  exact (c10_scalar_assignment (atLineB ['x'] [' '] false)
    DestType.floating none 9).1 (by decide)

/-- C6 counterexample: token `0.5` read into a boolean destination does NOT
succeed — it fails with `ParseValueError`, because `std::is_integral_v<bool>`
is true in C++, so the must-equal-floor test also runs for `bool` (as the
source's own comment notes). -/
theorem c6_counterexample :
    (atLineB ['b'] ['0', '.', '5'] false).read DestType.boolean none 0
      = (.error (.parseValue ['b'] 1 fname), 0) := by
  have hpn : parseNumber ['0', '.', '5'] = some (1/2) := by
    show some ((1 : Rat) * (((0 : Nat) : Rat) + ((5 : Nat) : Rat) / ((10 : Rat) ^ (1 : Nat))))
        = some (1/2)
    norm_num
  have hnx : readnext (atLineB ['b'] ['0', '.', '5'] false).line
      = some (['0', '.', '5'], ⟨[], true, false⟩) := by decide
  have hden : (((1 : Rat)/2).den == 1) = false := by
    have hd : ((1 : Rat)/2).den = 2 := by norm_num
    rw [hd]
    rfl
  have hb1 : (isIntegral DestType.boolean && !(((1 : Rat)/2).den == 1)) = true := by
    rw [hden]
    rfl
  simp only [ReadPars.read, hnx, hpn, hb1]
  rfl

/-- C6 (amended): for a boolean destination with a cleanly parsed token, the
coercer flags values strictly greater than 1 with `ParseValueError`, and it
ALSO rejects fractional values strictly between 0 and 1 (such as 0.5): the
must-equal-floor rule applies to boolean destinations too, because `bool` is
an integral type, so the read succeeds exactly when the parsed value is 0
or 1. -/
theorem c6_amended (r : ReadPars) (temp : List Char) (line1 : StrStream) (x d : Rat)
    (h1 : readnext r.line = some (temp, line1))
    (h2 : parseNumber temp = some x) :
    ((r.read DestType.boolean none d).1
        = .error (.parseValue r.name r.count r.filename) ↔ ¬ (x = 0 ∨ x = 1))
    ∧ (1 < x →
        (r.read DestType.boolean none d).1
          = .error (.parseValue r.name r.count r.filename)) := by
  have hiff : (r.read DestType.boolean none d).1
      = .error (.parseValue r.name r.count r.filename) ↔ ¬ (x = 0 ∨ x = 1) := by
    constructor
    · intro herr hor
      have hden : (x.den == 1) = true := by
        rcases hor with rfl | rfl <;> rfl
      have hneg : decide (x < 0) = false := by
        rcases hor with rfl | rfl <;> rfl
      have hgt : decide (1 < x) = false := by
        rcases hor with rfl | rfl <;> rfl
      have hok : (r.read DestType.boolean none d).1 = .ok { r with line := line1 } := by
        simp [ReadPars.read, h1, h2, hden, hneg, hgt]
      rw [hok] at herr
      exact absurd herr (by simp)
    · intro hnor
      by_cases hden : x.den = 1
      · have hxint : x = (x.num : Rat) := (Rat.coe_int_num_of_den_eq_one hden).symm
        by_cases hneg : x < 0
        · have ha : (isIntegral DestType.boolean && !(x.den == 1)) = false := by
            simp [hden]
          have hb : (isUnsigned DestType.boolean && decide (x < 0)) = true := by
            simp [isUnsigned, hneg]
          simp [ReadPars.read, h1, h2, ha, hb]
        · by_cases hgt : 1 < x
          · have ha : (isIntegral DestType.boolean && !(x.den == 1)) = false := by
              simp [hden]
            have hb : (isUnsigned DestType.boolean && decide (x < 0)) = false := by
              simp [isUnsigned, hneg]
            have hc : (isBool DestType.boolean && decide (1 < x)) = true := by
              simp [isBool, hgt]
            simp [ReadPars.read, h1, h2, ha, hb, hc]
          · exfalso
            have h0 : (0 : Rat) ≤ x := not_lt.mp hneg
            have h1x : x ≤ 1 := not_lt.mp hgt
            rw [hxint] at h0 h1x
            have hn0 : (0 : Int) ≤ x.num := by exact_mod_cast h0
            have hn1 : x.num ≤ 1 := by exact_mod_cast h1x
            have hcase : x.num = 0 ∨ x.num = 1 := by omega
            rcases hcase with h | h
            · exact hnor (Or.inl (by rw [hxint, h]; norm_num))
            · exact hnor (Or.inr (by rw [hxint, h]; norm_num))
      · have ha : (isIntegral DestType.boolean && !(x.den == 1)) = true := by
          simp [isIntegral, hden]
        simp [ReadPars.read, h1, h2, ha]
  refine ⟨hiff, ?_⟩
  intro hgt
  apply hiff.mpr
  rintro (rfl | rfl)
  · exact absurd hgt (by norm_num)
  · exact absurd hgt (by norm_num)

/-- Witness for C6 (amended): token `2` into a boolean destination fails. -/
theorem c6_witness :
    readnext (atLineB ['b'] ['2'] false).line = some (['2'], ⟨[], true, false⟩)
    ∧ parseNumber ['2'] = some 2
    ∧ ((atLineB ['b'] ['2'] false).read DestType.boolean none 0).1
        = .error (.parseValue ['b'] 1 fname) := by
  have hpn : parseNumber ['2'] = some 2 := by
    show some ((1 : Rat) * ((2 : Nat) : Rat)) = some 2
    norm_num
  refine ⟨by decide, hpn, ?_⟩
  exact (c6_amended (atLineB ['b'] ['2'] false) ['2'] ⟨[], true, false⟩ 2 0 (by decide) hpn).2
    (by norm_num)

/-- C5 counterexample: on the line `name ` (name followed only by a trailing
blank) `readline` SUCCEEDS — it does not fail with `NoValueError`, because
`iseol` peeks the blank, not EOF. -/
theorem c5_counterexample :
    (afterOpen ['n', 'a', 'm', 'e', ' ']).readline
      = .ok { filename := fname, file := ⟨[], true, true⟩, count := 1, empty := false,
              comment := false, line := ⟨[' '], false, false⟩,
              name := ['n', 'a', 'm', 'e'] } := by
  rfl

/-- C5 (amended): for a non-empty, non-comment line whose name token is
extracted, `readline` fails with `NoValueError` (message `No value for
parameter ...`) exactly when NO character at all remains after the name —
a name followed only by trailing whitespace does NOT trigger the error (the
missing value surfaces later, as a `ReadValueError`, when a value is read). -/
theorem c5_amended (r0 : ReadPars) (temp : List Char) (f1 : FileStream)
    (nm : List Char) (line1 : StrStream)
    (hgl : getlineF r0.file = (temp, f1))
    (hne : temp ≠ [])
    (hcm : (temp.headD (Char.ofNat 0) == '#') = false)
    (hnx : readnext ⟨temp, false, false⟩ = some (nm, line1)) :
    (r0.readline = .error (.noValue nm (r0.count + 1) r0.filename) ↔ line1.rem = [])
    ∧ (PErr.noValue nm (r0.count + 1) r0.filename).message
        = "No value for parameter " ++ String.mk nm ++ " in line "
          ++ Nat.repr (r0.count + 1) ++ " of file " ++ r0.filename := by
  have hie : temp.isEmpty = false := by
    cases temp with
    | nil => exact absurd rfl hne
    | cons a b => rfl
  obtain ⟨hb1, hb2⟩ := readnext_some_bits _ _ _ hnx
  refine ⟨?_, rfl⟩
  simp only [ReadPars.readline, ReadPars.reset]
  rw [hgl]
  simp only [hie, hcm, Bool.or_self, Bool.false_eq_true, if_false, hnx]
  have hiseol : iseolS line1 = line1.rem.isEmpty := by
    simp [iseolS, hb1, hb2]
  rw [hiseol]
  cases hre : line1.rem.isEmpty
  · simp only [Bool.false_eq_true, if_false]
    constructor
    · intro h
      exact absurd h (by simp)
    · intro h
      rw [h] at hre
      simp at hre
  · simp only [if_true]
    constructor
    · intro _
      exact List.isEmpty_iff.mp hre
    · intro _
      trivial

/-- Witness for C5 (amended): line `p 1` — a value token follows the name,
and indeed `readline` does not raise `NoValueError`. -/
theorem c5_witness :
    getlineF (afterOpen ['p', ' ', '1']).file = (['p', ' ', '1'], ⟨[], true, true⟩)
    ∧ (['p', ' ', '1'] : List Char) ≠ []
    ∧ ((['p', ' ', '1'] : List Char).headD (Char.ofNat 0) == '#') = false
    ∧ readnext ⟨['p', ' ', '1'], false, false⟩ = some (['p'], ⟨[' ', '1'], false, false⟩)
    ∧ ((afterOpen ['p', ' ', '1']).readline
        = .error (.noValue ['p'] ((afterOpen ['p', ' ', '1']).count + 1)
            (afterOpen ['p', ' ', '1']).filename)
       ↔ ([' ', '1'] : List Char) = []) := by
  refine ⟨by decide, by decide, by decide, by decide, ?_⟩
  exact (c5_amended (afterOpen ['p', ' ', '1']) ['p', ' ', '1'] ⟨[], true, true⟩
    ['p'] ⟨[' ', '1'], false, false⟩ (by decide) (by decide) (by decide) (by decide)).1

/-- C2: on a line of the exact form `<name> <v1> ... <vn>` whose value
tokens all parse cleanly for the destination kind, `readline` succeeds and
`readvalues` with count n succeeds, storing exactly the n parsed values in
order; with a larger count it fails with `TooFewValuesError`, with a smaller
(positive) count it fails with `TooManyValuesError`. -/
theorem c2_vector_read (r0 : ReadPars) (nm : List Char) (vs : List (List Char))
    (tail : List Char) (t : DestType) (m : Nat)
    (hfile : r0.file.rem = lineOf nm vs ++ tail)
    (hfeb : r0.file.eofbit = false)
    (htail : tail = [] ∨ ∃ u, tail = '\n' :: u)
    (hnm : nm ≠ []) (hnmc : nm.all validChar = true)
    (hvs : vs ≠ [])
    (hgood : ∀ v ∈ vs, goodToken t v = true)
    (hm : 1 ≤ m) :
    ∃ r1, r0.readline = .ok r1 ∧ r1.name = nm
      ∧ ((m = vs.length →
            ∃ rf, r1.readvalues t m none none = (.ok rf, vs.map (parsedVal t)))
         ∧ (vs.length < m →
            (r1.readvalues t m none none).1
              = .error (.tooFew nm (r0.count + 1) r0.filename))
         ∧ (m < vs.length →
            (r1.readvalues t m none none).1
              = .error (.tooMany nm (r0.count + 1) r0.filename))) := by
  have hvsc : ∀ v ∈ vs, v.all validChar = true := fun v hv => (goodToken_spec (hgood v hv)).2.1
  obtain ⟨r1, hrl, hline, hname, hcount, hfn⟩ :=
    readline_exact hfile hfeb htail hnm hnmc hvs hvsc
  have hspec := readvaluesLoop_spec t m vs r1 0 []
    (by rw [hline]) (by rw [hline])
    (by rw [hline]; intro h; simp at h) hgood (Nat.zero_le m)
  refine ⟨r1, hrl, hname, ?_, ?_, ?_⟩
  · intro hmeq
    obtain ⟨rf, heq, _, _, _⟩ := hspec.1 (by rw [Nat.zero_add]; exact hmeq.symm)
    refine ⟨rf, ?_⟩
    rw [ReadPars.readvalues, heq]
    simp
  · intro hlen
    have heq := hspec.2.1 (by rw [Nat.zero_add]; exact hlen)
    rw [ReadPars.readvalues, heq]
    simp [hname, hcount, hfn]
  · intro hlen
    have heq := hspec.2.2 (by rw [Nat.zero_add]; exact hlen)
    rw [ReadPars.readvalues, heq]
    simp [hname, hcount, hfn]

/-- Witness for C2: line `g 1 2`, two floating values. -/
theorem c2_witness :
    (afterOpen ['g', ' ', '1', ' ', '2']).file.rem = lineOf ['g'] [['1'], ['2']] ++ []
    ∧ (afterOpen ['g', ' ', '1', ' ', '2']).file.eofbit = false
    ∧ (∀ v ∈ [['1'], ['2']], goodToken DestType.floating v = true)
    ∧ (∃ r1, (afterOpen ['g', ' ', '1', ' ', '2']).readline = .ok r1 ∧ r1.name = ['g']
        ∧ ((2 = ([['1'], ['2']] : List (List Char)).length →
              ∃ rf, r1.readvalues DestType.floating 2 none none
                = (.ok rf, [['1'], ['2']].map (parsedVal DestType.floating)))
           ∧ (([['1'], ['2']] : List (List Char)).length < 2 →
              (r1.readvalues DestType.floating 2 none none).1
                = .error (.tooFew ['g'] ((afterOpen ['g', ' ', '1', ' ', '2']).count + 1)
                    (afterOpen ['g', ' ', '1', ' ', '2']).filename))
           ∧ (2 < ([['1'], ['2']] : List (List Char)).length →
              (r1.readvalues DestType.floating 2 none none).1
                = .error (.tooMany ['g'] ((afterOpen ['g', ' ', '1', ' ', '2']).count + 1)
                    (afterOpen ['g', ' ', '1', ' ', '2']).filename)))) := by
  have hg1 : goodToken DestType.floating ['1'] = true := by
    have hpn : parseNumber ['1'] = some 1 := by
      show some ((1 : Rat) * ((1 : Nat) : Rat)) = some 1
      norm_num
    simp [goodToken, hpn, police, validChar, isalnumA, isIntegral, isUnsigned, isBool]
  have hg2 : goodToken DestType.floating ['2'] = true := by
    have hpn : parseNumber ['2'] = some 2 := by
      show some ((1 : Rat) * ((2 : Nat) : Rat)) = some 2
      norm_num
    simp [goodToken, hpn, police, validChar, isalnumA, isIntegral, isUnsigned, isBool]
  have hgood : ∀ v ∈ [['1'], ['2']], goodToken DestType.floating v = true := by
    intro v hv
    simp only [List.mem_cons, List.not_mem_nil, or_false] at hv
    rcases hv with rfl | rfl
    · exact hg1
    · exact hg2
  refine ⟨by decide, by decide, hgood, ?_⟩
  exact c2_vector_read (afterOpen ['g', ' ', '1', ' ', '2']) ['g'] [['1'], ['2']] []
    DestType.floating 2 (by decide) (by decide) (Or.inl rfl) (by decide) (by decide)
    (by decide) hgood (by decide)

/-- C3 counterexample: reading `g 1 2` with expected count 3 raises
`TooFewValuesError`, yet the destination vector holds the two parsed values
— the partially-filled vector is NOT discarded (it is passed by reference,
cleared at the start and kept as-is when the exception is thrown). -/
theorem c3_counterexample :
    (atLineB ['g'] [' ', '1', ' ', '2'] false).readvalues DestType.floating 3 none none
      = (.error (.tooFew ['g'] 1 fname), [(1 : Rat), (2 : Rat)])
    ∧ [(1 : Rat), (2 : Rat)] ≠ [] := by
  have hp1 : parseNumber ['1'] = some 1 := by
    show some ((1 : Rat) * ((1 : Nat) : Rat)) = some 1
    norm_num
  have hp2 : parseNumber ['2'] = some 2 := by
    show some ((1 : Rat) * ((2 : Nat) : Rat)) = some 2
    norm_num
  have hline1 : (atLineB ['g'] [' ', '1', ' ', '2'] false).line
      = ⟨' ' :: (['1'] ++ [' ', '2']), false, false⟩ := rfl
  have hr1 : (atLineB ['g'] [' ', '1', ' ', '2'] false).read DestType.floating none 0
      = (.ok { atLineB ['g'] [' ', '1', ' ', '2'] false with
               line := ⟨[' ', '2'], ([' ', '2'] : List Char).isEmpty, false⟩ },
         castValue DestType.floating 1) :=
    read_step 0 hline1 (Or.inr ⟨['2'], rfl⟩) (by decide) (by decide) hp1 (by decide)
  have hline2 : ({ atLineB ['g'] [' ', '1', ' ', '2'] false with
               line := ⟨[' ', '2'], ([' ', '2'] : List Char).isEmpty, false⟩ }).line
      = ⟨' ' :: (['2'] ++ []), false, false⟩ := rfl
  have hr2 : ({ atLineB ['g'] [' ', '1', ' ', '2'] false with
               line := ⟨[' ', '2'], ([' ', '2'] : List Char).isEmpty, false⟩ }).read
        DestType.floating none 0
      = (.ok { atLineB ['g'] [' ', '1', ' ', '2'] false with
               line := ⟨[], ([] : List Char).isEmpty, false⟩ },
         castValue DestType.floating 2) :=
    read_step 0 hline2 (Or.inl rfl) (by decide) (by decide) hp2 (by decide)
  constructor
  · rw [ReadPars.readvalues,
      loop_step (by decide) (by decide) hr1,
      loop_step (by decide) (by decide) hr2,
      loop_eol_few (by decide) (by decide)]
    simp [castValue, atLineB]
  · simp

/-- C3 (amended): `readvalues` clears the destination vector on entry; on a
failure the partial content is retained in the (by-reference) destination —
after `TooFewValuesError` it holds every value parsed from the line, after
`TooManyValuesError` it holds the first n parsed values.  There IS an
observable partial state after the error. -/
theorem c3_partial_vector (r0 : ReadPars) (nm : List Char) (vs : List (List Char))
    (tail : List Char) (t : DestType) (m1 m2 : Nat)
    (hfile : r0.file.rem = lineOf nm vs ++ tail)
    (hfeb : r0.file.eofbit = false)
    (htail : tail = [] ∨ ∃ u, tail = '\n' :: u)
    (hnm : nm ≠ []) (hnmc : nm.all validChar = true)
    (hgood : ∀ v ∈ vs, goodToken t v = true)
    (hm1 : vs.length < m1) (hm2 : 1 ≤ m2) (hm2b : m2 < vs.length) :
    ∃ r1, r0.readline = .ok r1
      ∧ r1.readvalues t m1 none none
          = (.error (.tooFew nm (r0.count + 1) r0.filename), vs.map (parsedVal t))
      ∧ r1.readvalues t m2 none none
          = (.error (.tooMany nm (r0.count + 1) r0.filename),
             (vs.take m2).map (parsedVal t)) := by
  have hvs : vs ≠ [] := by
    intro h
    subst h
    simp at hm2b
  have hvsc : ∀ v ∈ vs, v.all validChar = true := fun v hv => (goodToken_spec (hgood v hv)).2.1
  obtain ⟨r1, hrl, hline, hname, hcount, hfn⟩ :=
    readline_exact hfile hfeb htail hnm hnmc hvs hvsc
  have hspec1 := readvaluesLoop_spec t m1 vs r1 0 []
    (by rw [hline]) (by rw [hline])
    (by rw [hline]; intro h; simp at h) hgood (Nat.zero_le m1)
  have hspec2 := readvaluesLoop_spec t m2 vs r1 0 []
    (by rw [hline]) (by rw [hline])
    (by rw [hline]; intro h; simp at h) hgood (Nat.zero_le m2)
  refine ⟨r1, hrl, ?_, ?_⟩
  · have heq := hspec1.2.1 (by rw [Nat.zero_add]; exact hm1)
    rw [ReadPars.readvalues, heq]
    simp [hname, hcount, hfn]
  · have heq := hspec2.2.2 (by rw [Nat.zero_add]; exact hm2b)
    rw [ReadPars.readvalues, heq]
    simp [hname, hcount, hfn]

/-- Witness for C3 (amended): line `g 1 2` read with counts 3 and 1. -/
theorem c3_witness :
    (afterOpen ['g', ' ', '1', ' ', '2']).file.rem = lineOf ['g'] [['1'], ['2']] ++ []
    ∧ (∀ v ∈ [['1'], ['2']], goodToken DestType.floating v = true)
    ∧ (∃ r1, (afterOpen ['g', ' ', '1', ' ', '2']).readline = .ok r1
        ∧ r1.readvalues DestType.floating 3 none none
            = (.error (.tooFew ['g'] ((afterOpen ['g', ' ', '1', ' ', '2']).count + 1)
                  (afterOpen ['g', ' ', '1', ' ', '2']).filename),
               [['1'], ['2']].map (parsedVal DestType.floating))
        ∧ r1.readvalues DestType.floating 1 none none
            = (.error (.tooMany ['g'] ((afterOpen ['g', ' ', '1', ' ', '2']).count + 1)
                  (afterOpen ['g', ' ', '1', ' ', '2']).filename),
               (([['1'], ['2']] : List (List Char)).take 1).map
                 (parsedVal DestType.floating))) := by
  have hg1 : goodToken DestType.floating ['1'] = true := by
    have hpn : parseNumber ['1'] = some 1 := by
      show some ((1 : Rat) * ((1 : Nat) : Rat)) = some 1
      norm_num
    simp [goodToken, hpn, police, validChar, isalnumA, isIntegral, isUnsigned, isBool]
  have hg2 : goodToken DestType.floating ['2'] = true := by
    have hpn : parseNumber ['2'] = some 2 := by
      show some ((1 : Rat) * ((2 : Nat) : Rat)) = some 2
      norm_num
    simp [goodToken, hpn, police, validChar, isalnumA, isIntegral, isUnsigned, isBool]
  have hgood : ∀ v ∈ [['1'], ['2']], goodToken DestType.floating v = true := by
    intro v hv
    simp only [List.mem_cons, List.not_mem_nil, or_false] at hv
    rcases hv with rfl | rfl
    · exact hg1
    · exact hg2
  refine ⟨by decide, hgood, ?_⟩
  exact c3_partial_vector (afterOpen ['g', ' ', '1', ' ', '2']) ['g'] [['1'], ['2']] []
    DestType.floating 3 1 (by decide) (by decide) (Or.inl rfl) (by decide) (by decide)
    hgood (by decide) (by decide) (by decide)

end ReadParsModel

